import Mathlib

/-!
Verification development for the linkedin-marketing-content repository.

The repository contains three Python batch jobs:
  * `ai.digest.py`       — Sunday LinkedIn content pack (feed ingestion,
                            LLM curation with deterministic fallback,
                            backup-feed escalation, SendGrid mailer);
  * `daily_investment.py` — daily multi-asset investment digest
                            (credential fast-fail, market snapshot,
                            LLM summary, SendGrid mailer);
  * `market_digest.py`    — watchlist market scanner (yfinance history,
                            day/week percentage moves, SendGrid mailer).

Each job is shallowly embedded below.  External effects (HTTP fetches,
the LLM completion call, the email provider) are modelled as explicit
inputs: an `Option` value stands for a call that either produced data or
failed, and an inductive outcome type stands for the decoded shape of the
LLM response.  Machine timestamps are modelled as integers; `datetime`
round-trips through ISO strings are identities on that model.  Prices are
modelled as rationals; Python `round(x, 2)` is modelled as round-half-to-
even at two decimals.
-/

namespace AIDigest

/-! ### normalize_url (ai.digest.py lines 95-112)

Python splits strings with `str.split`; we mirror that on `List Char`:
`splitOnChar` is `s.split(sep)` for a one-character separator, `joinChar`
is `sep.join(parts)`, and `takeWhile (· != c)` is `s.split(c)[0]`
(everything before the first occurrence of `c`). -/

/-- `s.split(c)` for a single-character separator: splits on every
occurrence, `"" ↦ [""]`, adjacent separators yield empty parts. -/
def splitOnChar (c : Char) : List Char → List (List Char)
  | [] => [[]]
  | a :: rest =>
    match splitOnChar c rest with
    | [] => [[]]
    | h :: t => if a = c then [] :: h :: t else (a :: h) :: t

/-- `c.join(parts)` for a single-character separator. -/
def joinChar (c : Char) : List (List Char) → List Char
  | [] => []
  | [p] => p
  | p :: ps => p ++ c :: joinChar c ps

/-- `part.lower().startswith("utm_")`: the first four characters,
lower-cased, are `u`, `t`, `m`, `_`. -/
def startsWithUtm (p : List Char) : Bool :=
  match p with
  | a :: b :: d :: e :: _ =>
    a.toLower == 'u' && b.toLower == 't' && d.toLower == 'm' && e.toLower == '_'
  | _ => false

/-- Body of `normalize_url` on the character list of the URL.
Mirrors: empty string returned as-is; fragment stripped
(`url.split("#")[0]`); if a query string is present, parameters whose
lower-cased form starts with `utm_` are dropped; if no parameter
survives, the bare root is returned. -/
def normChars (l : List Char) : List Char :=
  if l = [] then []
  else
    let base := l.takeWhile (· != '#')
    if '?' ∈ base then
      let root := base.takeWhile (· != '?')
      let qs := (base.dropWhile (· != '?')).tail
      let kept := (splitOnChar '&' qs).filter (fun p => !startsWithUtm p)
      if kept = [] then root
      else root ++ '?' :: joinChar '&' kept
    else base

/-- `normalize_url` from ai.digest.py: rough URL normalization used to
build the deduplication key. -/
def normalize_url (u : String) : String :=
  String.mk (normChars u.data)

/-! ### Articles and feed ingestion (ai.digest.py lines 125-221)

Timestamps are modelled as `Int`; the `published` ISO string and the
re-parsed `published_dt` datetime of the Python code carry the same
instant, so both fields hold the same integer here. -/

/-- The article dictionary built by `parse_entry` (plus the
`published_dt` key added by the `fetch_recent_articles` loop). -/
structure Article where
  title : String
  link : String
  summary : String
  published : Int
  source : String
  published_dt : Int
deriving DecidableEq, Repr

/-- A parsed RSS/Atom entry as `parse_entry` reads it: `none` fields are
keys absent from the feed entry (for `published`, also a value the
permissive date parser failed on). -/
structure Entry where
  title : Option String
  link : Option String
  summary : Option String
  description : Option String
  published : Option Int
  source_title : Option String
  feedburner_origlink : Bool
deriving DecidableEq, Repr

/-- Python `a or b` on strings: `b` when `a` is empty. -/
def pyOr (a b : String) : String :=
  if a = "" then b else a

/-- `s.strip()` on the character list: drop whitespace from both ends. -/
def trimChars (l : List Char) : List Char :=
  ((l.dropWhile Char.isWhitespace).reverse.dropWhile Char.isWhitespace).reverse

/-- `s.strip()`. -/
def strTrim (s : String) : String :=
  String.mk (trimChars s.data)

/-- `s.lower()` on code points. -/
def strLower (s : String) : String :=
  String.mk (s.data.map Char.toLower)

/-- `link.split("//", 1)[1]`: the characters after the first `//`;
`none` when there is no `//` (the Python slice would raise IndexError,
caught by the surrounding try/except). -/
def afterDoubleSlash : List Char → Option (List Char)
  | '/' :: '/' :: rest => some rest
  | _ :: rest => afterDoubleSlash rest
  | [] => none

/-- `host.replace("www.", "")`: remove every non-overlapping occurrence
of `www.`, scanning left to right. -/
def stripWWW : List Char → List Char
  | 'w' :: 'w' :: 'w' :: '.' :: rest => stripWWW rest
  | a :: rest => a :: stripWWW rest
  | [] => []

/-- Rough guess at the source host from the link (parse_entry lines
153-159): text between the first `//` and the next `/`, with `www.`
removed; empty on failure. -/
def hostOf (link : String) : String :=
  match afterDoubleSlash link.data with
  | none => ""
  | some rest => String.mk (stripWWW (rest.takeWhile (· != '/')))

/-- `parse_entry` (ai.digest.py lines 125-167).  `now` is the current
UTC time used when the publication date is missing or unparseable.  The
`published_dt` field records the value the fetch loop later re-derives
from `published` (an identity on this timestamp model). -/
def parse_entry (now : Int) (e : Entry) : Article :=
  let title := strTrim (e.title.getD "")
  let link := strTrim (e.link.getD "")
  let published := e.published.getD now
  let summary := strTrim (pyOr (e.summary.getD "") (e.description.getD ""))
  let source0 := e.source_title.getD ""
  let source1 := if source0 = "" ∧ e.feedburner_origlink then "Feedburner" else source0
  let source := if source1 = "" ∧ link ≠ "" then hostOf link else source1
  { title := title, link := link, summary := summary,
    published := published, source := source, published_dt := published }

/-- The per-run deduplication key: normalized link plus lower-cased
trimmed title (`(normalize_url(art["link"]), art["title"].strip().lower())`). -/
def articleKey (a : Article) : String × String :=
  (normalize_url a.link, strLower (strTrim a.title))

/-- The seen-set loop shared by `fetch_recent_articles` (lines 200-208)
and `main` (lines 454-461): keep an article only when its key has not
been seen yet. -/
def dedupeAux : List (String × String) → List Article → List Article
  | _, [] => []
  | seen, a :: rest =>
    if articleKey a ∈ seen then dedupeAux seen rest
    else a :: dedupeAux (articleKey a :: seen) rest

/-- Deduplicate by uniqueness key, keeping the first occurrence. -/
def dedupeArticles (l : List Article) : List Article :=
  dedupeAux [] l

/-- Descending-recency order used by `articles.sort(key=..., reverse=True)`. -/
def tsGE (a b : Article) : Prop :=
  b.published_dt ≤ a.published_dt

instance : DecidableRel tsGE :=
  fun a b => inferInstanceAs (Decidable (b.published_dt ≤ a.published_dt))

instance : IsTotal Article tsGE :=
  ⟨fun a b => le_total b.published_dt a.published_dt⟩

instance : IsTrans Article tsGE :=
  ⟨fun _ _ _ hab hbc => le_trans hbc hab⟩

/-- `articles.sort(key=lambda a: a["published_dt"], reverse=True)`.
The Python sort is stable; no theorem below relies on the order of
articles with equal timestamps, so insertion sort is an adequate model. -/
def sortByRecency (l : List Article) : List Article :=
  List.insertionSort tsGE l

/-- The environment-tunable knobs of the ingestion stage.  The two day
counts are carried as spans in the timestamp unit. -/
structure FetchConfig where
  lookback_span : Int
  prefer_recent_span : Int
  max_entries_per_feed : Nat
  max_articles_total : Nat
  max_to_model : Nat
deriving DecidableEq, Repr

/-- The per-entry body of the fetch loop (lines 181-195): parse each
entry and keep it unless its timestamp is strictly older than the
cutoff.  No entry is dropped for a missing title or link. -/
def collectFromEntries (now cutoff : Int) (entries : List Entry) : List Article :=
  (entries.map (parse_entry now)).filter (fun a => !decide (a.published_dt < cutoff))

/-- Sort, dedupe, cap, recency-preference split and final cap
(lines 197-221 after the fetch loop). -/
def shortlist_stage (cfg : FetchConfig) (now : Int) (articles : List Article) : List Article :=
  let sorted := sortByRecency articles
  let deduped := dedupeArticles sorted
  let capped := if cfg.max_articles_total < deduped.length
                then deduped.take cfg.max_articles_total else deduped
  let prefer_cut := now - cfg.prefer_recent_span
  let recent := capped.filter (fun a => decide (prefer_cut ≤ a.published_dt))
  let older := capped.filter (fun a => decide (a.published_dt < prefer_cut))
  (recent ++ older).take cfg.max_to_model

/-- `fetch_recent_articles`: each list element models one feed URL, with
`none` standing for a feed whose fetch/parse failed (skipped by
`safe_get` returning `None`); a successful feed contributes at most
`MAX_ENTRIES_PER_FEED` entries in document order. -/
def fetch_recent_articles (cfg : FetchConfig) (now : Int)
    (feeds : List (Option (List Entry))) : List Article :=
  let cutoff := now - cfg.lookback_span
  let articles :=
    ((feeds.filterMap id).map
      (fun entries => collectFromEntries now cutoff (entries.take cfg.max_entries_per_feed))).flatten
  shortlist_stage cfg now articles

/-! ### LLM curation with deterministic fallback (ai.digest.py lines 228-318) -/

/-- One curated item as returned to the email builder. -/
structure Curated where
  title : String
  link : String
  source : String
  published : Int
  one_sentence : String
  why_it_matters : String
  angle_for_linkedin : String
deriving DecidableEq, Repr

/-- Decoded shape of the LLM completion response:
`exc` — the chat-completion call raised, or `json.loads` raised on
non-JSON text (both land in the `except` branch);
`json_nonlist` — the text decoded to a JSON value that is not a list
(the `isinstance` guard fails and control falls through);
`json_list items` — the text decoded to a JSON list. -/
inductive ModelResult where
  | exc
  | json_nonlist
  | json_list (items : List Curated)
deriving DecidableEq, Repr

/-- `a["summary"][:260] + ("..." if len(a["summary"]) > 260 else "")`.
Python slicing and `len` act on code points, so this works on `s.data`. -/
def truncate260 (s : String) : String :=
  if s.data.length > 260 then String.mk (s.data.take 260) ++ "..." else s

/-- One item of the recency fallback (lines 305-317). -/
def fallbackItem (a : Article) : Curated :=
  { title := a.title, link := a.link, source := a.source,
    published := a.published,
    one_sentence := truncate260 a.summary,
    why_it_matters := "Useful recent piece on marketing, AI, GTM or leadership.",
    angle_for_linkedin :=
      "Share a concise summary, then add one sharp observation from your own experience." }

/-- The deterministic fallback: first `CURATED_COUNT` shortlisted
articles with synthesized enrichment text. -/
def fallbackCuration (curatedCount : Nat) (articles : List Article) : List Curated :=
  (articles.take curatedCount).map fallbackItem

/-- `select_and_enrich_articles`, with the LLM call abstracted into its
decoded outcome.  An empty input returns immediately; a decoded list —
including an empty one — is truncated to `CURATED_COUNT` and returned;
an exception or a non-list decode reaches the fallback below the try
block. -/
def select_and_enrich_articles (curatedCount : Nat) (outcome : ModelResult)
    (articles : List Article) : List Curated :=
  if articles = [] then []
  else
    match outcome with
    | ModelResult.json_list items => items.take curatedCount
    | ModelResult.exc => fallbackCuration curatedCount articles
    | ModelResult.json_nonlist => fallbackCuration curatedCount articles

/-! ### SendGrid mailer (ai.digest.py lines 406-427) -/

/-- What the content-pack mailer did.  The function always returns (the
Python function never raises): missing credentials skip delivery, a
provider exception is caught and logged. -/
inductive SendResult where
  | notSent
  | sent (status : Nat)
  | failedLogged
deriving DecidableEq, Repr

/-- `send_email` of ai.digest.py.  Credentials come from `os.getenv`
(unset and empty are both falsy, modelled as the empty string);
`provider` is `some status` when `sg.send` succeeds and `none` when it
raises. -/
def send_email (api_key from_email to_email : String)
    (provider : Option Nat) : SendResult :=
  if api_key = "" ∨ from_email = "" ∨ to_email = "" then SendResult.notSent
  else
    match provider with
    | some status => SendResult.sent status
    | none => SendResult.failedLogged

/-! ### Orchestration (ai.digest.py lines 434-466) -/

/-- Inputs of one run of `main`: the schedule-gate state, the articles
the two `fetch_recent_articles` calls would shortlist, and the decoded
LLM outcome of each of the at most two curation calls. -/
structure ContentEnv where
  enforce : Bool
  sydHour : Nat
  curatedCount : Nat
  primary : List Article
  backup : List Article
  outcome1 : ModelResult
  outcome2 : ModelResult
deriving DecidableEq, Repr

/-- Result of one run of `main`.  `skipped` records the Sydney hour the
skip notice logs; it is produced before any fetch, curation or send, so
a skipped run makes no downstream calls.  `completed` carries the final
curated list and whether the backup-feed escalation ran. -/
inductive ContentRun where
  | skipped (sydHour : Nat)
  | completed (curated : List Curated) (backupFetched : Bool)
deriving DecidableEq, Repr

/-- `main` of ai.digest.py: schedule gate, primary fetch + curation,
backup escalation when the curated count is below `max(3, CURATED_COUNT // 2)`,
re-deduplication of the union with the same key loop, re-curation. -/
def main (env : ContentEnv) : ContentRun :=
  if env.enforce ∧ env.sydHour ≠ 21 then ContentRun.skipped env.sydHour
  else
    let curated := select_and_enrich_articles env.curatedCount env.outcome1 env.primary
    if curated.length < max 3 (env.curatedCount / 2) then
      let combined := env.primary ++ env.backup
      let uniq_combined := dedupeArticles combined
      ContentRun.completed
        (select_and_enrich_articles env.curatedCount env.outcome2 uniq_combined) true
    else ContentRun.completed curated false

end AIDigest

namespace DailyInvestment

/-! ### daily_investment.py: crypto quote, mailer, main -/

/-- The fields of the Finnhub `/quote` response that
`get_crypto_quote` reads: `c` is the current price, `pc` the previous
close; `none` models an absent key (`dict.get` returning `None`). -/
structure FinnhubQuote where
  c : Option ℚ
  pc : Option ℚ
deriving DecidableEq, Repr

/-- The dictionary `get_crypto_quote` returns. -/
structure CryptoQuote where
  symbol : String
  price : Option ℚ
  prev_close : Option ℚ
  pct_change : Option ℚ
deriving DecidableEq, Repr

/-- `get_crypto_quote` (daily_investment.py lines 188-215).  `data` is
the `safe_get` result: `none` when the HTTP call failed or the body was
falsy.  The guard `if price is not None and prev_close:` computes the
percentage change only when the price is present and the previous close
is present and non-zero (Python truthiness), so the division is never
executed on an absent previous close. -/
def get_crypto_quote (coin : String) (data : Option FinnhubQuote) : Option CryptoQuote :=
  match data with
  | none => none
  | some d =>
    let pct_change : Option ℚ :=
      match d.c, d.pc with
      | some price, some prev_close =>
        if prev_close ≠ 0 then some ((price - prev_close) / prev_close * 100) else none
      | _, _ => none
    some { symbol := coin, price := d.c, prev_close := d.pc, pct_change := pct_change }

/-- `send_email` of daily_investment.py (lines 350-366): raises
`RuntimeError` on a missing credential, and the `sg.send` call is not
wrapped in a try/except, so a provider failure propagates out of the
function.  `Except.error` models a raised exception; `provider` is
`some status` when `sg.send` succeeds and `none` when it raises. -/
def send_email (sendgrid_api_key from_email to_email : String)
    (provider : Option Nat) : Except String Nat :=
  if sendgrid_api_key = "" then Except.error "SENDGRID_API_KEY missing"
  else if from_email = "" then Except.error "MARKET_DIGEST_FROM missing"
  else if to_email = "" then Except.error "MARKET_DIGEST_TO missing"
  else
    match provider with
    | some status => Except.ok status
    | none => Except.error "SendGrid send raised"

/-- Inputs of one run of `main`: the schedule-gate state and the four
provider credentials (unset and empty environment values are both falsy
in the `if not KEY` checks, modelled as the empty string). -/
structure InvestEnv where
  enforce : Bool
  sydHour : Nat
  openai_key : String
  tiingo_key : String
  alphavantage_key : String
  finnhub_key : String
deriving DecidableEq, Repr

/-- Result of one run of `main`.  `skipped` records the Sydney hour the
skip notice logs.  `configError` is the `RuntimeError` raised by a
missing credential; it is produced before `build_market_snapshot`, so no
HTTP call has been attempted at that point.  `completed` is a run that
reached the snapshot/summary/send pipeline. -/
inductive InvestRun where
  | skipped (sydHour : Nat)
  | configError (msg : String)
  | completed
deriving DecidableEq, Repr

/-- `main` of daily_investment.py (lines 371-390): schedule gate at
08:00 Sydney, then the four credential checks in source order, then the
pipeline. -/
def main (env : InvestEnv) : InvestRun :=
  if env.enforce ∧ env.sydHour ≠ 8 then InvestRun.skipped env.sydHour
  else if env.openai_key = "" then InvestRun.configError "OPENAI_API_KEY missing"
  else if env.tiingo_key = "" then InvestRun.configError "TIINGO_API_KEY missing"
  else if env.alphavantage_key = "" then InvestRun.configError "ALPHAVANTAGE_API_KEY missing"
  else if env.finnhub_key = "" then InvestRun.configError "FINNHUB_API_KEY missing"
  else InvestRun.completed

end DailyInvestment

namespace MarketDigest

/-! ### market_digest.py: watchlist scanner and mailer -/

/-- Python `round(x, 2)` semantics at the integer step: round to the
nearest integer, ties to even. -/
def roundHalfEven (q : ℚ) : ℤ :=
  let f := ⌊q⌋
  let frac := q - f
  if frac < 1 / 2 then f
  else if 1 / 2 < frac then f + 1
  else if Even f then f else f + 1

/-- `round(x, 2)`: two-decimal rounding. -/
def round2 (q : ℚ) : ℚ :=
  (roundHalfEven (q * 100) : ℚ) / 100

/-- The per-ticker record `fetch_market_data` appends (minus the
`ticker`/`name` metadata, which no arithmetic depends on). -/
structure TickerQuote where
  price : ℚ
  day_change_pct : ℚ
  week_change_pct : ℚ
deriving DecidableEq, Repr

/-- The arithmetic core of `fetch_market_data` (market_digest.py lines
56-86) on the `Close` column of the fetched history, oldest to newest:
skip the ticker when fewer than 2 bars exist; day change from the last
two closes; week change against the close 6 bars back when at least 6
bars exist, else against the oldest close; all rounded to 2 decimals. -/
def fetch_market_data_closes (closes : List ℚ) : Option TickerQuote :=
  if closes.length < 2 then none
  else
    let price := closes.getD (closes.length - 1) 0
    let prev_price := closes.getD (closes.length - 2) 0
    let day_change_pct := (price - prev_price) / prev_price * 100
    let week_price := if 6 ≤ closes.length then closes.getD (closes.length - 6) 0
                      else closes.getD 0 0
    let week_change_pct := (price - week_price) / week_price * 100
    some { price := round2 price,
           day_change_pct := round2 day_change_pct,
           week_change_pct := round2 week_change_pct }

/-- Outcome of `send_email_via_sendgrid` when it returns: either the
provider accepted the message, or the provider raised and the
`except` branch logged the error and returned normally. -/
inductive SendOutcome where
  | sent (status : Nat)
  | errorLogged
deriving DecidableEq, Repr

/-- `send_email_via_sendgrid` (market_digest.py lines 186-206).  The
three credentials are read with `os.environ[...]`, which raises
`KeyError` when the variable is unset (`none`); the `sg.send` call is
inside a try/except whose handler logs and swallows the provider error,
so the function returns normally in both provider cases. -/
def send_email_via_sendgrid (sg_api_key to_email from_email : Option String)
    (provider : Option Nat) : Except String SendOutcome :=
  match sg_api_key with
  | none => Except.error "KeyError: SENDGRID_API_KEY"
  | some _ =>
    match to_email with
    | none => Except.error "KeyError: MARKET_DIGEST_TO"
    | some _ =>
      match from_email with
      | none => Except.error "KeyError: MARKET_DIGEST_FROM"
      | some _ =>
        match provider with
        | some status => Except.ok (SendOutcome.sent status)
        | none => Except.ok SendOutcome.errorLogged

end MarketDigest

namespace AIDigest

/-! ### Concrete sample inputs used by witnesses and counterexamples -/

/-- A shortlisted article with a tracking parameter on its link. -/
def sampleArticle : Article :=
  { title := "AI in marketing", link := "https://example.com/a?utm_source=x&id=1",
    summary := "A summary.", published := 100, source := "example.com",
    published_dt := 100 }

/-- An older article with the same uniqueness key as `sampleArticle`:
same normalized link (fragment and `utm_` parameter removed) and same
lower-cased trimmed title. -/
def sampleOlder : Article :=
  { title := "  AI in Marketing ", link := "https://example.com/a?id=1#frag",
    summary := "Duplicate.", published := 50, source := "example.com",
    published_dt := 50 }

/-- A feed entry with no `title` key at all. -/
def sampleEntryNoTitle : Entry :=
  { title := none, link := some "https://host/x", summary := some "s",
    description := none, published := some 50, source_title := some "Host",
    feedburner_origlink := false }

/-- The default ingestion knobs of ai.digest.py, with the two day counts
read as spans in the integer timestamp unit. -/
def sampleFetchConfig : FetchConfig :=
  { lookback_span := 90, prefer_recent_span := 45, max_entries_per_feed := 15,
    max_articles_total := 200, max_to_model := 80 }

/-- A content-pack run whose gate passes, whose primary curation falls
back to a single article, and which therefore escalates to the backup
feeds. -/
def sampleContentEnv : ContentEnv :=
  { enforce := false, sydHour := 12, curatedCount := 10,
    primary := [sampleArticle], backup := [sampleOlder],
    outcome1 := ModelResult.exc, outcome2 := ModelResult.exc }

end AIDigest

namespace DailyInvestment

/-- An investment-digest run whose gate passes and whose OpenAI key is
absent. -/
def sampleInvestEnv : InvestEnv :=
  { enforce := false, sydHour := 12, openai_key := "", tiingo_key := "t",
    alphavantage_key := "a", finnhub_key := "f" }

end DailyInvestment

/-! ## Theorems -/

/-- A run of the content-pack job whose gate passes always reaches one of
the two `completed` branches. -/
theorem content_main_proceeds (env : AIDigest.ContentEnv)
    (h : ¬(env.enforce ∧ env.sydHour ≠ 21)) :
    ∃ c b, AIDigest.main env = AIDigest.ContentRun.completed c b := by
  by_cases hlen : (AIDigest.select_and_enrich_articles env.curatedCount env.outcome1
      env.primary).length < max 3 (env.curatedCount / 2)
  · exact ⟨AIDigest.select_and_enrich_articles env.curatedCount env.outcome2
      (AIDigest.dedupeArticles (env.primary ++ env.backup)), true,
      by simp only [AIDigest.main, if_neg h, if_pos hlen]⟩
  · exact ⟨AIDigest.select_and_enrich_articles env.curatedCount env.outcome1 env.primary,
      false, by simp only [AIDigest.main, if_neg h, if_neg hlen]⟩

/-- A run of the investment-digest job whose gate passes never reports a
skip, whatever the credential state. -/
theorem invest_main_ne_skipped (env : DailyInvestment.InvestEnv)
    (hg : ¬(env.enforce ∧ env.sydHour ≠ 8)) (h : Nat) :
    DailyInvestment.main env ≠ DailyInvestment.InvestRun.skipped h := by
  by_cases h1 : env.openai_key = "" <;> by_cases h2 : env.tiingo_key = "" <;>
    by_cases h3 : env.alphavantage_key = "" <;> by_cases h4 : env.finnhub_key = "" <;>
    simp [DailyInvestment.main, if_neg hg, h1, h2, h3, h4]

/-- Claim C3: the schedule gate of each job lets the run proceed exactly
when enforcement is disabled or the Sydney-local hour equals the target
hour (21 for the content pack, 8 for the investment digest); on mismatch
the job returns a skip outcome carrying the logged local time, producing
no downstream work, instead of raising. -/
theorem claimC3_schedule_gate (cenv : AIDigest.ContentEnv)
    (ienv : DailyInvestment.InvestEnv) :
    (AIDigest.main cenv = AIDigest.ContentRun.skipped cenv.sydHour ↔
      (cenv.enforce = true ∧ cenv.sydHour ≠ 21)) ∧
    ((∃ c b, AIDigest.main cenv = AIDigest.ContentRun.completed c b) ↔
      (cenv.enforce = false ∨ cenv.sydHour = 21)) ∧
    (DailyInvestment.main ienv = DailyInvestment.InvestRun.skipped ienv.sydHour ↔
      (ienv.enforce = true ∧ ienv.sydHour ≠ 8)) ∧
    ((∀ h, DailyInvestment.main ienv ≠ DailyInvestment.InvestRun.skipped h) ↔
      (ienv.enforce = false ∨ ienv.sydHour = 8)) := by
  refine ⟨?_, ?_, ?_, ?_⟩
  · constructor
    · intro hrun
      by_contra hc
      have hg : ¬(cenv.enforce ∧ cenv.sydHour ≠ 21) := by
        intro ⟨h1, h2⟩; exact hc ⟨h1, h2⟩
      obtain ⟨c, b, hcb⟩ := content_main_proceeds cenv hg
      rw [hrun] at hcb
      exact AIDigest.ContentRun.noConfusion hcb
    · intro ⟨h1, h2⟩
      simp only [AIDigest.main, if_pos (And.intro h1 h2)]
  · constructor
    · intro ⟨c, b, hcb⟩
      by_contra hc
      push_neg at hc
      have henf : cenv.enforce = true := by
        cases he : cenv.enforce
        · exact absurd he hc.1
        · rfl
      have : AIDigest.main cenv = AIDigest.ContentRun.skipped cenv.sydHour := by
        simp only [AIDigest.main, if_pos (And.intro henf hc.2)]
      rw [this] at hcb
      exact AIDigest.ContentRun.noConfusion hcb
    · intro hg
      refine content_main_proceeds cenv ?_
      rintro ⟨h1, h2⟩
      rcases hg with h | h
      · rw [h] at h1; exact Bool.noConfusion h1
      · exact h2 h
  · constructor
    · intro hrun
      by_contra hc
      have hg : ¬(ienv.enforce ∧ ienv.sydHour ≠ 8) := by
        intro ⟨h1, h2⟩; exact hc ⟨h1, h2⟩
      exact invest_main_ne_skipped ienv hg ienv.sydHour hrun
    · intro ⟨h1, h2⟩
      simp only [DailyInvestment.main, if_pos (And.intro h1 h2)]
  · constructor
    · intro hall
      by_contra hc
      push_neg at hc
      have henf : ienv.enforce = true := by
        cases he : ienv.enforce
        · exact absurd he hc.1
        · rfl
      exact hall ienv.sydHour
        (by simp only [DailyInvestment.main, if_pos (And.intro henf hc.2)])
    · intro hg h
      have hng : ¬(ienv.enforce ∧ ienv.sydHour ≠ 8) := by
        rintro ⟨h1, h2⟩
        rcases hg with hh | hh
        · rw [hh] at h1; exact Bool.noConfusion h1
        · exact h2 hh
      exact invest_main_ne_skipped ienv hng h

/-- Claim C4: in the content-pack orchestrator, a primary curation pass
below `max(3, CURATED_COUNT // 2)` items triggers exactly one backup
fetch, merges the backup articles with the primary shortlist,
re-deduplicates the union with the same uniqueness key, and re-runs
curation on it; a primary pass meeting the threshold triggers no backup
fetch and its curated list is final. -/
theorem claimC4_backup_escalation (env : AIDigest.ContentEnv)
    (hgate : env.enforce = false ∨ env.sydHour = 21) :
    ((AIDigest.select_and_enrich_articles env.curatedCount env.outcome1 env.primary).length <
        max 3 (env.curatedCount / 2) →
      AIDigest.main env = AIDigest.ContentRun.completed
        (AIDigest.select_and_enrich_articles env.curatedCount env.outcome2
          (AIDigest.dedupeArticles (env.primary ++ env.backup))) true) ∧
    (¬ (AIDigest.select_and_enrich_articles env.curatedCount env.outcome1 env.primary).length <
        max 3 (env.curatedCount / 2) →
      AIDigest.main env = AIDigest.ContentRun.completed
        (AIDigest.select_and_enrich_articles env.curatedCount env.outcome1 env.primary) false) := by
  have hg : ¬(env.enforce ∧ env.sydHour ≠ 21) := by
    rintro ⟨h1, h2⟩
    rcases hgate with h | h
    · rw [h] at h1; exact Bool.noConfusion h1
    · exact h2 h
  constructor
  · intro hlen
    simp only [AIDigest.main, if_neg hg, if_pos hlen]
  · intro hlen
    simp only [AIDigest.main, if_neg hg, if_neg hlen]

/-- Witness for claim C4: a concrete passing-gate run whose primary pass
curates one article (below the threshold of 5), so the orchestrator
re-curates the deduplicated union of the primary and backup shortlists. -/
theorem claimC4_witness :
    AIDigest.main AIDigest.sampleContentEnv = AIDigest.ContentRun.completed
      (AIDigest.select_and_enrich_articles 10 AIDigest.ModelResult.exc
        (AIDigest.dedupeArticles ([AIDigest.sampleArticle] ++ [AIDigest.sampleOlder]))) true :=
  (claimC4_backup_escalation AIDigest.sampleContentEnv (Or.inl rfl)).1 (by decide)

/-- Claim C5 (investment half): with the gate passing, each absent API
key makes `main` raise the `RuntimeError` naming exactly that variable,
checked in source order before the market snapshot (and hence before any
HTTP call); (mailer half): the content-digest mailer with any missing
email credential returns a not-sent outcome without raising and without
a delivery attempt. -/
theorem claimC5_missing_credentials (env : DailyInvestment.InvestEnv)
    (hgate : env.enforce = false ∨ env.sydHour = 8) :
    (env.openai_key = "" →
      DailyInvestment.main env = DailyInvestment.InvestRun.configError "OPENAI_API_KEY missing") ∧
    (env.openai_key ≠ "" → env.tiingo_key = "" →
      DailyInvestment.main env = DailyInvestment.InvestRun.configError "TIINGO_API_KEY missing") ∧
    (env.openai_key ≠ "" → env.tiingo_key ≠ "" → env.alphavantage_key = "" →
      DailyInvestment.main env =
        DailyInvestment.InvestRun.configError "ALPHAVANTAGE_API_KEY missing") ∧
    (env.openai_key ≠ "" → env.tiingo_key ≠ "" → env.alphavantage_key ≠ "" →
        env.finnhub_key = "" →
      DailyInvestment.main env = DailyInvestment.InvestRun.configError "FINNHUB_API_KEY missing") ∧
    (∀ (api fromE toE : String) (provider : Option Nat),
      api = "" ∨ fromE = "" ∨ toE = "" →
      AIDigest.send_email api fromE toE provider = AIDigest.SendResult.notSent) := by
  have hg : ¬(env.enforce ∧ env.sydHour ≠ 8) := by
    rintro ⟨h1, h2⟩
    rcases hgate with h | h
    · rw [h] at h1; exact Bool.noConfusion h1
    · exact h2 h
  refine ⟨?_, ?_, ?_, ?_, ?_⟩
  · intro h1
    simp only [DailyInvestment.main, if_neg hg, if_pos h1]
  · intro h1 h2
    simp only [DailyInvestment.main, if_neg hg, if_neg h1, if_pos h2]
  · intro h1 h2 h3
    simp only [DailyInvestment.main, if_neg hg, if_neg h1, if_neg h2, if_pos h3]
  · intro h1 h2 h3 h4
    simp only [DailyInvestment.main, if_neg hg, if_neg h1, if_neg h2, if_neg h3, if_pos h4]
  · intro api fromE toE provider hmiss
    simp only [AIDigest.send_email, if_pos hmiss]

/-- Witness for claim C5: a concrete passing-gate run with the OpenAI
key absent raises the error naming it, and the content mailer with an
empty API key skips delivery. -/
theorem claimC5_witness :
    DailyInvestment.main DailyInvestment.sampleInvestEnv =
      DailyInvestment.InvestRun.configError "OPENAI_API_KEY missing" ∧
    AIDigest.send_email "" "from@x" "to@x" (some 202) = AIDigest.SendResult.notSent :=
  ⟨(claimC5_missing_credentials DailyInvestment.sampleInvestEnv (Or.inl rfl)).1 rfl,
   (claimC5_missing_credentials DailyInvestment.sampleInvestEnv (Or.inl rfl)).2.2.2.2
     "" "from@x" "to@x" (some 202) (Or.inl rfl)⟩

/-- Claim C9: when the Finnhub quote response lacks a previous close,
`get_crypto_quote` returns a quote whose `pct_change` is `None`
(not zero), and the branch computing the percentage division is never
taken. -/
theorem claimC9_crypto_guard (coin : String) (d : DailyInvestment.FinnhubQuote)
    (h : d.pc = none) :
    DailyInvestment.get_crypto_quote coin (some d) =
      some { symbol := coin, price := d.c, prev_close := none,
             pct_change := none } := by
  obtain ⟨c, pc⟩ := d
  cases h
  cases c <;> rfl

/-- Witness for claim C9: a concrete quote response with a price but no
previous close yields an absent `pct_change`. -/
theorem claimC9_witness :
    DailyInvestment.get_crypto_quote "BTC" (some { c := some 5, pc := none }) =
      some { symbol := "BTC", price := some 5, prev_close := none,
             pct_change := none } :=
  claimC9_crypto_guard "BTC" { c := some 5, pc := none } rfl

/-- Counterexample to claim C8 as stated: in the watchlist job
(market_digest.py), a provider failure during send (`provider = none`)
is caught by the try/except and the function returns normally with a
logged error, rather than propagating and failing the run. -/
theorem claimC8_counterexample :
    MarketDigest.send_email_via_sendgrid (some "k") (some "to") (some "from") none =
      Except.ok MarketDigest.SendOutcome.errorLogged := rfl

/-- Claim C8 as amended: a provider failure during send is swallowed in
the Content Digest job and in the watchlist job (both return normally
with a logged error), and propagates only in the investment digest,
whose run then fails. -/
theorem claimC8_delivery_amended :
    (∀ api fromE toE : String, api ≠ "" → fromE ≠ "" → toE ≠ "" →
      AIDigest.send_email api fromE toE none = AIDigest.SendResult.failedLogged) ∧
    (∀ api toE fromE : String,
      MarketDigest.send_email_via_sendgrid (some api) (some toE) (some fromE) none =
        Except.ok MarketDigest.SendOutcome.errorLogged) ∧
    (∀ api fromE toE : String, api ≠ "" → fromE ≠ "" → toE ≠ "" →
      DailyInvestment.send_email api fromE toE none =
        Except.error "SendGrid send raised") := by
  refine ⟨?_, ?_, ?_⟩
  · intro api fromE toE h1 h2 h3
    have hmiss : ¬(api = "" ∨ fromE = "" ∨ toE = "") := by
      rintro (h | h | h) <;> [exact h1 h; exact h2 h; exact h3 h]
    simp only [AIDigest.send_email, if_neg hmiss]
  · intro api toE fromE
    rfl
  · intro api fromE toE h1 h2 h3
    simp only [DailyInvestment.send_email, if_neg h1, if_neg h2, if_neg h3]

/-- Witness for claim C8 as amended: concrete provider failures in the
three mailers with all credentials present. -/
theorem claimC8_witness :
    AIDigest.send_email "k" "f@x" "t@x" none = AIDigest.SendResult.failedLogged ∧
    MarketDigest.send_email_via_sendgrid (some "k") (some "t@x") (some "f@x") none =
      Except.ok MarketDigest.SendOutcome.errorLogged ∧
    DailyInvestment.send_email "k" "f@x" "t@x" none =
      Except.error "SendGrid send raised" :=
  ⟨claimC8_delivery_amended.1 "k" "f@x" "t@x" (by decide) (by decide) (by decide),
   claimC8_delivery_amended.2.1 "k" "t@x" "f@x",
   claimC8_delivery_amended.2.2 "k" "f@x" "t@x" (by decide) (by decide) (by decide)⟩

/-- A truncated summary is empty only if the source summary was empty. -/
theorem truncate260_eq_empty (s : String) (h : AIDigest.truncate260 s = "") : s = "" := by
  by_cases hlen : s.data.length > 260
  · exfalso
    simp only [AIDigest.truncate260, if_pos hlen] at h
    have hd := congrArg String.data h
    rw [String.data_append] at hd
    simp at hd
  · simp only [AIDigest.truncate260, if_neg hlen] at h
    exact h

/-- Counterexample to claim C1 as stated: an LLM response that decodes
to an empty JSON list passes the `isinstance(..., list)` guard and is
returned as-is, so a non-empty shortlist yields zero curated items
instead of the fallback of `min(CURATED_COUNT, len(input)) = 1` item. -/
theorem claimC1_counterexample :
    AIDigest.select_and_enrich_articles 10 (AIDigest.ModelResult.json_list [])
      [AIDigest.sampleArticle] = [] ∧
    min 10 [AIDigest.sampleArticle].length = 1 := by
  constructor
  · rfl
  · rfl

/-- Claim C1 as amended: when the LLM call raises or its text decodes to
a non-JSON value or a JSON non-list (an empty JSON list, by contrast, is
returned as-is), a non-empty shortlist yields the deterministic fallback
of exactly `min(CURATED_COUNT, len(input))` items — the first
`CURATED_COUNT` shortlisted articles in input order — each with a
synopsis equal to the source summary truncated at 260 characters
(non-empty whenever the source summary is non-empty) and the non-empty
generic why-it-matters and angle texts. -/
theorem claimC1_curation_fallback (cc : Nat) (outcome : AIDigest.ModelResult)
    (articles : List AIDigest.Article)
    (hne : articles ≠ [])
    (hfail : outcome = AIDigest.ModelResult.exc ∨
      outcome = AIDigest.ModelResult.json_nonlist) :
    (AIDigest.select_and_enrich_articles cc outcome articles).length
      = min cc articles.length ∧
    (AIDigest.select_and_enrich_articles cc outcome articles).map AIDigest.Curated.title
      = (articles.map AIDigest.Article.title).take cc ∧
    (AIDigest.select_and_enrich_articles cc outcome articles).map AIDigest.Curated.link
      = (articles.map AIDigest.Article.link).take cc ∧
    (AIDigest.select_and_enrich_articles cc outcome articles).map
        AIDigest.Curated.one_sentence
      = (articles.map (fun a => AIDigest.truncate260 a.summary)).take cc ∧
    (∀ c ∈ AIDigest.select_and_enrich_articles cc outcome articles,
      c.why_it_matters ≠ "" ∧ c.angle_for_linkedin ≠ "" ∧
      (c.one_sentence = "" → ∃ a ∈ articles, a.summary = "")) := by
  have hr : AIDigest.select_and_enrich_articles cc outcome articles
      = (articles.take cc).map AIDigest.fallbackItem := by
    rcases hfail with h | h <;> subst h <;>
      simp only [AIDigest.select_and_enrich_articles, AIDigest.fallbackCuration, if_neg hne]
  refine ⟨?_, ?_, ?_, ?_, ?_⟩
  · rw [hr, List.length_map, List.length_take]
  · rw [hr, List.map_map, ← List.map_take]
    rfl
  · rw [hr, List.map_map, ← List.map_take]
    rfl
  · rw [hr, List.map_map, ← List.map_take]
    rfl
  · intro c hc
    rw [hr] at hc
    obtain ⟨a, ha, rfl⟩ := List.mem_map.mp hc
    refine ⟨?_, ?_, ?_⟩
    · show "Useful recent piece on marketing, AI, GTM or leadership." ≠ ""
      decide
    · show "Share a concise summary, then add one sharp observation from your own experience." ≠ ""
      decide
    · intro hone
      exact ⟨a, List.take_subset cc articles ha,
        truncate260_eq_empty a.summary hone⟩

/-- Witness for claim C1 as amended: a raising LLM call on a one-article
shortlist yields exactly `min(10, 1) = 1` fallback item. -/
theorem claimC1_witness :
    (AIDigest.select_and_enrich_articles 10 AIDigest.ModelResult.exc
      [AIDigest.sampleArticle]).length = min 10 [AIDigest.sampleArticle].length :=
  (claimC1_curation_fallback 10 AIDigest.ModelResult.exc [AIDigest.sampleArticle]
    (by decide) (Or.inl rfl)).1

/-- Claim C6: for a ticker with at least 2 daily bars, the day change is
the percentage move between the last two closes and the week change
compares against the close 6 bars back when at least 6 bars exist, else
against the oldest close, each rounded to 2 decimals; on the closes
`[100, 102, 99, 105, 101, 98, 110]` this yields `12.24` and `7.84`. -/
theorem claimC6_day_week_changes (closes : List ℚ) (h2 : 2 ≤ closes.length) :
    (∃ q, MarketDigest.fetch_market_data_closes closes = some q ∧
      q.day_change_pct = MarketDigest.round2
        ((closes.getD (closes.length - 1) 0 - closes.getD (closes.length - 2) 0) /
          closes.getD (closes.length - 2) 0 * 100) ∧
      (6 ≤ closes.length → q.week_change_pct = MarketDigest.round2
        ((closes.getD (closes.length - 1) 0 - closes.getD (closes.length - 6) 0) /
          closes.getD (closes.length - 6) 0 * 100)) ∧
      (closes.length < 6 → q.week_change_pct = MarketDigest.round2
        ((closes.getD (closes.length - 1) 0 - closes.getD 0 0) /
          closes.getD 0 0 * 100))) ∧
    MarketDigest.fetch_market_data_closes [100, 102, 99, 105, 101, 98, 110] =
      some { price := 110, day_change_pct := 306 / 25, week_change_pct := 196 / 25 } := by
  constructor
  · have hn2 : ¬ closes.length < 2 := not_lt.mpr h2
    by_cases h6 : 6 ≤ closes.length
    · refine ⟨MarketDigest.TickerQuote.mk
          (MarketDigest.round2 (closes.getD (closes.length - 1) 0))
          (MarketDigest.round2
            ((closes.getD (closes.length - 1) 0 - closes.getD (closes.length - 2) 0) /
              closes.getD (closes.length - 2) 0 * 100))
          (MarketDigest.round2
            ((closes.getD (closes.length - 1) 0 - closes.getD (closes.length - 6) 0) /
              closes.getD (closes.length - 6) 0 * 100)),
        ?_, rfl, fun _ => rfl, fun hlt => absurd h6 (not_le.mpr hlt)⟩
      simp only [MarketDigest.fetch_market_data_closes, if_neg hn2, if_pos h6]
    · refine ⟨MarketDigest.TickerQuote.mk
          (MarketDigest.round2 (closes.getD (closes.length - 1) 0))
          (MarketDigest.round2
            ((closes.getD (closes.length - 1) 0 - closes.getD (closes.length - 2) 0) /
              closes.getD (closes.length - 2) 0 * 100))
          (MarketDigest.round2
            ((closes.getD (closes.length - 1) 0 - closes.getD 0 0) /
              closes.getD 0 0 * 100)),
        ?_, rfl, fun hle => absurd hle h6, fun _ => rfl⟩
      simp only [MarketDigest.fetch_market_data_closes, if_neg hn2, if_neg h6]
  · have h1 : MarketDigest.round2 (600 / 49) = 306 / 25 := by
      have hf : ⌊((600 : ℚ) / 49 * 100)⌋ = 1224 := by
        rw [Int.floor_eq_iff]
        norm_num
      simp only [MarketDigest.round2, MarketDigest.roundHalfEven, hf]
      norm_num
    have h2c : MarketDigest.round2 (400 / 51) = 196 / 25 := by
      have hf : ⌊((400 : ℚ) / 51 * 100)⌋ = 784 := by
        rw [Int.floor_eq_iff]
        norm_num
      simp only [MarketDigest.round2, MarketDigest.roundHalfEven, hf]
      norm_num
    have h3 : MarketDigest.round2 (110 : ℚ) = 110 := by
      have hf : ⌊((110 : ℚ) * 100)⌋ = 11000 := by
        rw [Int.floor_eq_iff]
        norm_num
      simp only [MarketDigest.round2, MarketDigest.roundHalfEven, hf]
      norm_num
    simp only [MarketDigest.fetch_market_data_closes]
    norm_num [List.getD]
    exact ⟨h3, h1, h2c⟩

/-- Witness for claim C6: the concrete seven-bar close history of the
spec, with day change `12.24 = 306/25` and week change `7.84 = 196/25`. -/
theorem claimC6_witness :
    MarketDigest.fetch_market_data_closes [100, 102, 99, 105, 101, 98, 110] =
      some { price := 110, day_change_pct := 306 / 25, week_change_pct := 196 / 25 } :=
  (claimC6_day_week_changes [100, 102, 99, 105, 101, 98, 110] (by norm_num)).2

/-- Counterexample to claim C7 as stated: neither `parse_entry` nor the
`fetch_recent_articles` loop drops an entry for a missing title or link;
a feed entry with no title at all survives ingestion and appears in the
shortlist with an empty title. -/
theorem claimC7_counterexample :
    (AIDigest.fetch_recent_articles AIDigest.sampleFetchConfig 100
      [some [AIDigest.sampleEntryNoTitle]]).map AIDigest.Article.title = [""] := by
  decide

/-- Claim C7 as amended: feed ingestion drops entries only by the
recency cutoff — every entry whose resolved timestamp is at least the
cutoff contributes its parsed article to the collected list, regardless
of an empty title or link, and every collected article meets the
cutoff. -/
theorem claimC7_ingestion_amended (now cutoff : Int) (entries : List AIDigest.Entry)
    (e : AIDigest.Entry) (he : e ∈ entries)
    (ht : cutoff ≤ e.published.getD now) :
    AIDigest.parse_entry now e ∈ AIDigest.collectFromEntries now cutoff entries ∧
    ∀ a ∈ AIDigest.collectFromEntries now cutoff entries, cutoff ≤ a.published_dt := by
  constructor
  · refine List.mem_filter.mpr ⟨List.mem_map_of_mem _ he, ?_⟩
    have hn : ¬ ((AIDigest.parse_entry now e).published_dt < cutoff) := by
      show ¬ (e.published.getD now < cutoff)
      exact not_lt.mpr ht
    simp [hn]
  · intro a ha
    have hcond := (List.mem_filter.mp ha).2
    have hn : ¬ (a.published_dt < cutoff) := by
      intro hlt
      simp [hlt] at hcond
    exact not_lt.mp hn

/-- Witness for claim C7 as amended: the title-less entry within the
cutoff window is collected. -/
theorem claimC7_witness :
    AIDigest.parse_entry 100 AIDigest.sampleEntryNoTitle ∈
      AIDigest.collectFromEntries 100 10 [AIDigest.sampleEntryNoTitle] :=
  (claimC7_ingestion_amended 100 10 [AIDigest.sampleEntryNoTitle]
    AIDigest.sampleEntryNoTitle (by decide) (by decide)).1

namespace AIDigest

/-- Every article the dedup loop emits came from its input. -/
theorem mem_of_mem_dedupeAux (x : Article) (seen : List (String × String))
    (l : List Article) (h : x ∈ dedupeAux seen l) : x ∈ l := by
  induction l generalizing seen with
  | nil => simp [dedupeAux] at h
  | cons a rest ih =>
    by_cases hk : articleKey a ∈ seen
    · simp only [dedupeAux, if_pos hk] at h
      exact List.mem_cons_of_mem a (ih _ h)
    · simp only [dedupeAux, if_neg hk] at h
      rcases List.mem_cons.mp h with h1 | h1
      · exact h1 ▸ List.mem_cons_self a rest
      · exact List.mem_cons_of_mem a (ih _ h1)

/-- The dedup loop never emits an article whose key was already seen. -/
theorem key_not_seen_of_mem_dedupeAux (x : Article) (seen : List (String × String))
    (l : List Article) (h : x ∈ dedupeAux seen l) : articleKey x ∉ seen := by
  induction l generalizing seen with
  | nil => simp [dedupeAux] at h
  | cons a rest ih =>
    by_cases hk : articleKey a ∈ seen
    · simp only [dedupeAux, if_pos hk] at h
      exact ih _ h
    · simp only [dedupeAux, if_neg hk] at h
      rcases List.mem_cons.mp h with h1 | h1
      · subst h1; exact hk
      · intro hx
        exact ih _ h1 (List.mem_cons_of_mem _ hx)

/-- No two articles emitted by the dedup loop share a uniqueness key. -/
theorem pairwise_dedupeAux (seen : List (String × String)) (l : List Article) :
    (dedupeAux seen l).Pairwise (fun a b => articleKey a ≠ articleKey b) := by
  induction l generalizing seen with
  | nil => simp [dedupeAux]
  | cons a rest ih =>
    by_cases hk : articleKey a ∈ seen
    · simpa only [dedupeAux, if_pos hk] using ih seen
    · simp only [dedupeAux, if_neg hk]
      refine List.Pairwise.cons ?_ (ih _)
      intro b hb he
      exact key_not_seen_of_mem_dedupeAux b _ _ hb
        (by rw [← he]; exact List.mem_cons_self _ _)

/-- The first input article bearing a given key survives the dedup loop. -/
theorem mem_dedupeAux_first (e : Article) :
    ∀ (l1 : List Article) (seen : List (String × String)) (l2 : List Article),
      articleKey e ∉ seen → (∀ y ∈ l1, articleKey y ≠ articleKey e) →
      e ∈ dedupeAux seen (l1 ++ e :: l2)
  | [], seen, l2, hs, _ => by
    simp only [List.nil_append, dedupeAux, if_neg hs]
    exact List.mem_cons_self _ _
  | a :: l1, seen, l2, hs, hl1 => by
    by_cases hk : articleKey a ∈ seen
    · simp only [List.cons_append, dedupeAux, if_pos hk]
      exact mem_dedupeAux_first e l1 seen l2 hs
        (fun y hy => hl1 y (List.mem_cons_of_mem _ hy))
    · simp only [List.cons_append, dedupeAux, if_neg hk]
      refine List.mem_cons_of_mem _ (mem_dedupeAux_first e l1 _ l2 ?_ ?_)
      · intro hx
        rcases List.mem_cons.mp hx with h1 | h1
        · exact hl1 a (List.mem_cons_self _ _) h1.symm
        · exact hs h1
      · exact fun y hy => hl1 y (List.mem_cons_of_mem _ hy)

end AIDigest

namespace AIDigest

/-- Splitting a list at the first element satisfying a decidable
predicate. -/
theorem exists_first_split {α : Type} (p : α → Prop) [DecidablePred p] :
    ∀ (l : List α) (x : α), x ∈ l → p x →
      ∃ l1 z l2, l = l1 ++ z :: l2 ∧ p z ∧ ∀ y ∈ l1, ¬ p y
  | [], x, hx, _ => absurd hx (List.not_mem_nil x)
  | a :: rest, x, hx, hp => by
    by_cases hpa : p a
    · exact ⟨[], a, rest, rfl, hpa, by simp⟩
    · have hxr : x ∈ rest := by
        rcases List.mem_cons.mp hx with h | h
        · subst h; exact absurd hp hpa
        · exact h
      obtain ⟨l1, z, l2, heq, hz, hl1⟩ := exists_first_split p rest x hxr hp
      refine ⟨a :: l1, z, l2, by rw [heq, List.cons_append], hz, ?_⟩
      intro y hy
      rcases List.mem_cons.mp hy with h | h
      · subst h; exact hpa
      · exact hl1 y h

/-- The key-inequality relation is symmetric. -/
theorem keyNe_symm : Symmetric (fun a b : Article => articleKey a ≠ articleKey b) :=
  fun _ _ h he => h he.symm

/-- After the descending-recency sort, the dedup loop keeps the
strictly-later of two key-sharing articles. -/
theorem dedupe_sort_keeps_later (l : List Article) (e1 e2 : Article)
    (h1 : e1 ∈ l)
    (hts : e2.published_dt < e1.published_dt)
    (honly : ∀ a ∈ l, articleKey a = articleKey e1 → a = e1 ∨ a = e2) :
    e1 ∈ dedupeArticles (sortByRecency l) := by
  have hperm : List.Perm (sortByRecency l) l := List.perm_insertionSort tsGE l
  have h1s : e1 ∈ sortByRecency l := hperm.mem_iff.mpr h1
  obtain ⟨l1, z, l2, heq, hz, hl1⟩ :=
    exists_first_split (fun a => articleKey a = articleKey e1) (sortByRecency l) e1 h1s rfl
  have hzl : z ∈ l := hperm.mem_iff.mp
    (by rw [heq]; exact List.mem_append_right _ (List.mem_cons_self _ _))
  rcases honly z hzl hz with hze | hze
  · subst hze
    rw [show dedupeArticles (sortByRecency l) = dedupeAux [] (l1 ++ z :: l2) by
      rw [dedupeArticles, heq]]
    exact mem_dedupeAux_first z l1 [] l2 (List.not_mem_nil _) (fun y hy hc => hl1 y hy hc)
  · exfalso
    subst hze
    have he1ne : e1 ≠ z := by
      intro h; rw [h] at hts; exact lt_irrefl _ hts
    have he1l2 : e1 ∈ l2 := by
      have hmem : e1 ∈ l1 ++ z :: l2 := heq ▸ h1s
      rcases List.mem_append.mp hmem with h | h
      · exact absurd rfl (hl1 e1 h)
      · rcases List.mem_cons.mp h with h | h
        · exact absurd h he1ne
        · exact h
    have hsorted : List.Sorted tsGE (sortByRecency l) := List.sorted_insertionSort tsGE l
    rw [heq] at hsorted
    have hrel : tsGE z e1 :=
      (List.pairwise_cons.mp (List.pairwise_append.mp hsorted).2.1).1 e1 he1l2
    exact absurd hts (not_lt.mpr hrel)

/-- After the descending-recency sort, the dedup loop drops the
strictly-earlier of two key-sharing articles. -/
theorem dedupe_sort_drops_earlier (l : List Article) (e1 e2 : Article)
    (h1 : e1 ∈ l) (hkey : articleKey e1 = articleKey e2)
    (hts : e2.published_dt < e1.published_dt)
    (honly : ∀ a ∈ l, articleKey a = articleKey e1 → a = e1 ∨ a = e2) :
    e2 ∉ dedupeArticles (sortByRecency l) := by
  intro h2mem
  have h1mem := dedupe_sort_keeps_later l e1 e2 h1 hts honly
  have hpw := pairwise_dedupeAux [] (sortByRecency l)
  have hne : e1 ≠ e2 := by
    intro h; rw [h] at hts; exact lt_irrefl _ hts
  exact (hpw.forall keyNe_symm h1mem h2mem hne) hkey

/-- After the descending-recency sort, exactly one article with a given
represented key survives the dedup loop. -/
theorem dedupe_sort_count_one (l : List Article) (e1 e2 : Article)
    (h1 : e1 ∈ l)
    (hts : e2.published_dt < e1.published_dt)
    (honly : ∀ a ∈ l, articleKey a = articleKey e1 → a = e1 ∨ a = e2) :
    ((dedupeArticles (sortByRecency l)).filter
      (fun a => decide (articleKey a = articleKey e1))).length = 1 := by
  have h1mem := dedupe_sort_keeps_later l e1 e2 h1 hts honly
  have hF1 : e1 ∈ (dedupeArticles (sortByRecency l)).filter
      (fun a => decide (articleKey a = articleKey e1)) :=
    List.mem_filter.mpr ⟨h1mem, by simp⟩
  have hpwF : ((dedupeArticles (sortByRecency l)).filter
      (fun a => decide (articleKey a = articleKey e1))).Pairwise
      (fun a b => articleKey a ≠ articleKey b) :=
    (pairwise_dedupeAux [] _).sublist (List.filter_sublist _)
  rcases hFs : (dedupeArticles (sortByRecency l)).filter
      (fun a => decide (articleKey a = articleKey e1)) with - | ⟨x, rest⟩
  · rw [hFs] at hF1
    exact absurd hF1 (List.not_mem_nil _)
  · rcases rest with - | ⟨y, t⟩
    · rfl
    · exfalso
      rw [hFs] at hpwF
      have hxy : articleKey x ≠ articleKey y :=
        (List.pairwise_cons.mp hpwF).1 y (List.mem_cons_self _ _)
      have hx : x ∈ (dedupeArticles (sortByRecency l)).filter
          (fun a => decide (articleKey a = articleKey e1)) := by
        rw [hFs]; exact List.mem_cons_self _ _
      have hy : y ∈ (dedupeArticles (sortByRecency l)).filter
          (fun a => decide (articleKey a = articleKey e1)) := by
        rw [hFs]; exact List.mem_cons_of_mem _ (List.mem_cons_self _ _)
      have hkx := of_decide_eq_true (List.mem_filter.mp hx).2
      have hky := of_decide_eq_true (List.mem_filter.mp hy).2
      exact hxy (hkx.trans hky.symm)

end AIDigest

namespace AIDigest

/-- Capping, recency-splitting and final capping preserve key
uniqueness. -/
theorem pairwise_capped_split (D : List Article)
    (hD : D.Pairwise (fun a b => articleKey a ≠ articleKey b)) (cut : Int) (n m : Nat) :
    ((((if n < D.length then D.take n else D).filter
        (fun a => decide (cut ≤ a.published_dt))) ++
      ((if n < D.length then D.take n else D).filter
        (fun a => decide (a.published_dt < cut)))).take m).Pairwise
      (fun a b => articleKey a ≠ articleKey b) := by
  have hcap : (if n < D.length then D.take n else D).Pairwise
      (fun a b => articleKey a ≠ articleKey b) := by
    split
    · exact hD.sublist (List.take_sublist _ _)
    · exact hD
  refine List.Pairwise.sublist (List.take_sublist _ _) ?_
  rw [List.pairwise_append]
  refine ⟨hcap.sublist (List.filter_sublist _), hcap.sublist (List.filter_sublist _), ?_⟩
  intro a ha b hb
  have haC := (List.mem_filter.mp ha).1
  have hbC := (List.mem_filter.mp hb).1
  have hat := of_decide_eq_true (List.mem_filter.mp ha).2
  have hbt := of_decide_eq_true (List.mem_filter.mp hb).2
  have hne : a ≠ b := by
    intro h
    subst h
    exact absurd hat (not_le.mpr hbt)
  exact hcap.forall keyNe_symm haC hbC hne

/-- The final shortlist carries pairwise-distinct uniqueness keys. -/
theorem shortlist_stage_pairwise (cfg : FetchConfig) (now : Int) (l : List Article) :
    (shortlist_stage cfg now l).Pairwise (fun a b => articleKey a ≠ articleKey b) :=
  pairwise_capped_split (dedupeArticles (sortByRecency l)) (pairwise_dedupeAux [] _)
    (now - cfg.prefer_recent_span) cfg.max_articles_total cfg.max_to_model

end AIDigest

/-- Claim C2: when exactly two fetched articles share a uniqueness key
(normalized link with fragment and `utm_` parameters removed, plus
lower-cased trimmed title) and their timestamps differ, the recency sort
plus dedup of the shortlisting stage keeps exactly the later one and
drops the earlier one; and the output of `fetch_recent_articles` never
contains two articles sharing a key. -/
theorem claimC2_dedup_retains_later (cfg : AIDigest.FetchConfig) (now : Int)
    (feeds : List (Option (List AIDigest.Entry)))
    (l : List AIDigest.Article) (e1 e2 : AIDigest.Article)
    (h1 : e1 ∈ l) (h2 : e2 ∈ l)
    (hkey : AIDigest.articleKey e1 = AIDigest.articleKey e2)
    (hts : e2.published_dt < e1.published_dt)
    (honly : ∀ a ∈ l, AIDigest.articleKey a = AIDigest.articleKey e1 →
      a = e1 ∨ a = e2) :
    e1 ∈ AIDigest.dedupeArticles (AIDigest.sortByRecency l) ∧
    e2 ∉ AIDigest.dedupeArticles (AIDigest.sortByRecency l) ∧
    ((AIDigest.dedupeArticles (AIDigest.sortByRecency l)).filter
      (fun a => decide (AIDigest.articleKey a = AIDigest.articleKey e1))).length = 1 ∧
    (AIDigest.fetch_recent_articles cfg now feeds).Pairwise
      (fun a b => AIDigest.articleKey a ≠ AIDigest.articleKey b) := by
  refine ⟨AIDigest.dedupe_sort_keeps_later l e1 e2 h1 hts honly,
    AIDigest.dedupe_sort_drops_earlier l e1 e2 h1 hkey hts honly,
    AIDigest.dedupe_sort_count_one l e1 e2 h1 hts honly,
    ?_⟩
  have := h2
  exact AIDigest.shortlist_stage_pairwise cfg now _

/-- Witness for claim C2: two concrete articles sharing the key after
URL normalization and title case-folding; the later one survives the
sorted dedup, the earlier one does not. -/
theorem claimC2_witness :
    AIDigest.sampleArticle ∈ AIDigest.dedupeArticles
      (AIDigest.sortByRecency [AIDigest.sampleOlder, AIDigest.sampleArticle]) ∧
    AIDigest.sampleOlder ∉ AIDigest.dedupeArticles
      (AIDigest.sortByRecency [AIDigest.sampleOlder, AIDigest.sampleArticle]) :=
  ⟨(claimC2_dedup_retains_later AIDigest.sampleFetchConfig 100 []
      [AIDigest.sampleOlder, AIDigest.sampleArticle]
      AIDigest.sampleArticle AIDigest.sampleOlder
      (by decide) (by decide) (by decide) (by decide) (by decide)).1,
   (claimC2_dedup_retains_later AIDigest.sampleFetchConfig 100 []
      [AIDigest.sampleOlder, AIDigest.sampleArticle]
      AIDigest.sampleArticle AIDigest.sampleOlder
      (by decide) (by decide) (by decide) (by decide) (by decide)).2.1⟩

namespace AIDigest

/-- `splitOnChar` rewritten at a cons once the recursive result is
known. -/
theorem splitOnChar_cons_eq (c a : Char) (rest : List Char) (h : List Char)
    (t : List (List Char)) (hs : splitOnChar c rest = h :: t) :
    splitOnChar c (a :: rest) = if a = c then [] :: h :: t else (a :: h) :: t := by
  rw [splitOnChar, hs]

/-- `splitOnChar` never returns an empty list of parts. -/
theorem splitOnChar_ne_nil (c : Char) : ∀ l : List Char, splitOnChar c l ≠ []
  | [] => by simp [splitOnChar]
  | a :: rest => by
    rcases hs : splitOnChar c rest with - | ⟨h, t⟩
    · exact absurd hs (splitOnChar_ne_nil c rest)
    · rw [splitOnChar_cons_eq c a rest h t hs]
      split <;> simp

/-- No part produced by `splitOnChar` contains the separator. -/
theorem not_mem_of_mem_splitOnChar (c : Char) :
    ∀ (l : List Char) (p : List Char), p ∈ splitOnChar c l → c ∉ p
  | [], p, hp => by
    simp only [splitOnChar, List.mem_singleton] at hp
    subst hp
    simp
  | a :: rest, p, hp => by
    rcases hs : splitOnChar c rest with - | ⟨h, t⟩
    · exact absurd hs (splitOnChar_ne_nil c rest)
    · rw [splitOnChar_cons_eq c a rest h t hs] at hp
      by_cases hac : a = c
      · rw [if_pos hac] at hp
        rcases List.mem_cons.mp hp with h1 | h1
        · subst h1; simp
        · exact not_mem_of_mem_splitOnChar c rest p (by rw [hs]; exact h1)
      · rw [if_neg hac] at hp
        rcases List.mem_cons.mp hp with h1 | h1
        · subst h1
          intro hc
          rcases List.mem_cons.mp hc with h2 | h2
          · exact hac h2.symm
          · exact not_mem_of_mem_splitOnChar c rest h
              (by rw [hs]; exact List.mem_cons_self h t) h2
        · exact not_mem_of_mem_splitOnChar c rest p
            (by rw [hs]; exact List.mem_cons_of_mem h h1)

/-- Every character of a part produced by `splitOnChar` comes from the
input list. -/
theorem mem_of_mem_splitOnChar (c : Char) :
    ∀ (l : List Char) (p : List Char), p ∈ splitOnChar c l → ∀ a : Char, a ∈ p → a ∈ l
  | [], p, hp, a, ha => by
    simp only [splitOnChar, List.mem_singleton] at hp
    subst hp
    exact absurd ha (List.not_mem_nil a)
  | b :: rest, p, hp, a, ha => by
    rcases hs : splitOnChar c rest with - | ⟨h, t⟩
    · exact absurd hs (splitOnChar_ne_nil c rest)
    · rw [splitOnChar_cons_eq c b rest h t hs] at hp
      by_cases hbc : b = c
      · rw [if_pos hbc] at hp
        rcases List.mem_cons.mp hp with h1 | h1
        · subst h1; exact absurd ha (List.not_mem_nil a)
        · exact List.mem_cons_of_mem b
            (mem_of_mem_splitOnChar c rest p (by rw [hs]; exact h1) a ha)
      · rw [if_neg hbc] at hp
        rcases List.mem_cons.mp hp with h1 | h1
        · subst h1
          rcases List.mem_cons.mp ha with h2 | h2
          · exact h2 ▸ List.mem_cons_self b rest
          · exact List.mem_cons_of_mem b
              (mem_of_mem_splitOnChar c rest h
                (by rw [hs]; exact List.mem_cons_self h t) a h2)
        · exact List.mem_cons_of_mem b
            (mem_of_mem_splitOnChar c rest p
              (by rw [hs]; exact List.mem_cons_of_mem h h1) a ha)

/-- A separator-free list splits into itself. -/
theorem splitOnChar_no_sep (c : Char) : ∀ l : List Char, c ∉ l → splitOnChar c l = [l]
  | [], _ => by simp [splitOnChar]
  | a :: rest, hc => by
    have hrec := splitOnChar_no_sep c rest (fun h => hc (List.mem_cons_of_mem _ h))
    have hac : ¬ a = c := fun h => hc (by rw [h]; exact List.mem_cons_self _ _)
    rw [splitOnChar_cons_eq c a rest rest [] hrec, if_neg hac]

/-- Splitting a list that starts with a separator-free block followed by
the separator peels off that block as the first part. -/
theorem splitOnChar_append_cons (c : Char) :
    ∀ (p m : List Char), c ∉ p → splitOnChar c (p ++ c :: m) = p :: splitOnChar c m
  | [], m, _ => by
    rcases hs : splitOnChar c m with - | ⟨h, t⟩
    · exact absurd hs (splitOnChar_ne_nil c m)
    · rw [List.nil_append, splitOnChar_cons_eq c c m h t hs, if_pos rfl]
  | a :: p, m, hc => by
    have hrec := splitOnChar_append_cons c p m (fun h => hc (List.mem_cons_of_mem _ h))
    have hac : ¬ a = c := fun h => hc (by rw [h]; exact List.mem_cons_self _ _)
    rw [List.cons_append, splitOnChar_cons_eq c a (p ++ c :: m) (p) (splitOnChar c m)
      hrec, if_neg hac]

/-- Splitting undoes joining for a nonempty list of separator-free
parts. -/
theorem splitOnChar_joinChar (c : Char) :
    ∀ parts : List (List Char), parts ≠ [] → (∀ p ∈ parts, c ∉ p) →
      splitOnChar c (joinChar c parts) = parts
  | [], h, _ => absurd rfl h
  | [p], _, hp => by
    simp only [joinChar]
    exact splitOnChar_no_sep c p (hp p (List.mem_cons_self _ _))
  | p :: q :: ps, _, hp => by
    simp only [joinChar]
    rw [splitOnChar_append_cons c p _ (hp p (List.mem_cons_self _ _)),
      splitOnChar_joinChar c (q :: ps) (by simp)
        (fun r hr => hp r (List.mem_cons_of_mem _ hr))]

/-- Every character of a join is the separator or comes from a part. -/
theorem mem_joinChar (c : Char) :
    ∀ (parts : List (List Char)) (a : Char), a ∈ joinChar c parts →
      a = c ∨ ∃ p ∈ parts, a ∈ p
  | [], a, h => absurd h (List.not_mem_nil a)
  | [p], a, h => Or.inr ⟨p, List.mem_cons_self _ _, by simpa [joinChar] using h⟩
  | p :: q :: ps, a, h => by
    simp only [joinChar] at h
    rcases List.mem_append.mp h with h1 | h1
    · exact Or.inr ⟨p, List.mem_cons_self _ _, h1⟩
    · rcases List.mem_cons.mp h1 with h2 | h2
      · exact Or.inl h2
      · rcases mem_joinChar c (q :: ps) a h2 with h3 | ⟨r, hr, ha⟩
        · exact Or.inl h3
        · exact Or.inr ⟨r, List.mem_cons_of_mem _ hr, ha⟩

/-- `takeWhile` over a satisfied block followed by a failing element
yields the block. -/
theorem takeWhile_middle (p : Char → Bool) :
    ∀ (l1 : List Char) (b : Char) (l2 : List Char),
      (∀ x ∈ l1, p x = true) → p b = false → (l1 ++ b :: l2).takeWhile p = l1
  | [], b, l2, _, hb => by simp [List.takeWhile_cons, hb]
  | a :: l1, b, l2, h1, hb => by
    have ha : p a = true := h1 a (List.mem_cons_self _ _)
    simp only [List.cons_append, List.takeWhile_cons, ha, if_true]
    rw [takeWhile_middle p l1 b l2 (fun x hx => h1 x (List.mem_cons_of_mem _ hx)) hb]

/-- `dropWhile` over a satisfied block followed by a failing element
yields the failing element and the remainder. -/
theorem dropWhile_middle (p : Char → Bool) :
    ∀ (l1 : List Char) (b : Char) (l2 : List Char),
      (∀ x ∈ l1, p x = true) → p b = false → (l1 ++ b :: l2).dropWhile p = b :: l2
  | [], b, l2, _, hb => by simp [List.dropWhile_cons, hb]
  | a :: l1, b, l2, h1, hb => by
    have ha : p a = true := h1 a (List.mem_cons_self _ _)
    simp only [List.cons_append, List.dropWhile_cons, ha, if_true]
    exact dropWhile_middle p l1 b l2 (fun x hx => h1 x (List.mem_cons_of_mem _ hx)) hb

/-- The separator never survives its own `takeWhile` guard. -/
theorem sep_not_mem_takeWhile (l : List Char) (c : Char) : c ∉ l.takeWhile (· != c) :=
  fun h => by simpa using List.mem_takeWhile_imp h

/-- `takeWhile (· != c)` is the identity on `c`-free lists. -/
theorem takeWhile_ne_of_not_mem (l : List Char) (c : Char) (h : c ∉ l) :
    l.takeWhile (· != c) = l :=
  List.takeWhile_eq_self_iff.mpr (fun x hx => by
    simp only [bne_iff_ne, ne_eq]
    intro he
    subst he
    exact h hx)

end AIDigest

namespace AIDigest

/-- `normChars` fixes any fragment-free, query-free list. -/
theorem normChars_clean (v : List Char) (hh : '#' ∉ v) (hq : '?' ∉ v) :
    normChars v = v := by
  by_cases hv : v = []
  · subst hv; rfl
  · have ht : v.takeWhile (· != '#') = v := takeWhile_ne_of_not_mem v '#' hh
    simp only [normChars, if_neg hv, ht, if_neg hq]

/-- `normChars` fixes any list of the shape it itself produces in the
query branch: a clean root, the question mark, and an ampersand-join of
nonempty, ampersand-free, fragment-free parts that all pass the `utm_`
filter. -/
theorem normChars_query_fixed (root : List Char) (kept : List (List Char))
    (hrh : '#' ∉ root) (hrq : '?' ∉ root) (hkne : kept ≠ [])
    (hamp : ∀ p ∈ kept, '&' ∉ p) (hph : ∀ p ∈ kept, '#' ∉ p)
    (hpu : ∀ p ∈ kept, (!startsWithUtm p) = true) :
    normChars (root ++ '?' :: joinChar '&' kept) = root ++ '?' :: joinChar '&' kept := by
  have hvne : root ++ '?' :: joinChar '&' kept ≠ [] := by simp
  have hhash : '#' ∉ root ++ '?' :: joinChar '&' kept := by
    intro h
    rcases List.mem_append.mp h with h1 | h1
    · exact hrh h1
    · rcases List.mem_cons.mp h1 with h2 | h2
      · exact absurd h2 (by decide)
      · rcases mem_joinChar '&' kept '#' h2 with h3 | ⟨p, hp, hin⟩
        · exact absurd h3 (by decide)
        · exact hph p hp hin
  have ht : (root ++ '?' :: joinChar '&' kept).takeWhile (· != '#') =
      root ++ '?' :: joinChar '&' kept := takeWhile_ne_of_not_mem _ '#' hhash
  have hqmem : '?' ∈ root ++ '?' :: joinChar '&' kept :=
    List.mem_append_right _ (List.mem_cons_self _ _)
  have hallroot : ∀ x ∈ root, (x != '?') = true := by
    intro x hx
    simp only [bne_iff_ne, ne_eq]
    intro he
    subst he
    exact hrq hx
  have htq : (root ++ '?' :: joinChar '&' kept).takeWhile (· != '?') = root :=
    takeWhile_middle _ root '?' _ hallroot (by simp)
  have hdq : (root ++ '?' :: joinChar '&' kept).dropWhile (· != '?') =
      '?' :: joinChar '&' kept :=
    dropWhile_middle _ root '?' _ hallroot (by simp)
  have hsj : splitOnChar '&' (joinChar '&' kept) = kept :=
    splitOnChar_joinChar '&' kept hkne hamp
  have hfk : kept.filter (fun p => !startsWithUtm p) = kept :=
    List.filter_eq_self.mpr hpu
  simp only [normChars, if_neg hvne, ht, if_pos hqmem, htq, hdq, List.tail_cons,
    hsj, hfk, if_neg hkne]

/-- `normChars` is idempotent. -/
theorem normChars_idem (l : List Char) : normChars (normChars l) = normChars l := by
  by_cases hl : l = []
  · subst hl; rfl
  · have hbh : '#' ∉ l.takeWhile (· != '#') := sep_not_mem_takeWhile l '#'
    by_cases hq : '?' ∈ l.takeWhile (· != '#')
    · have hv : normChars l =
          if ((splitOnChar '&' (((l.takeWhile (· != '#')).dropWhile (· != '?')).tail)).filter
              (fun p => !startsWithUtm p)) = []
          then (l.takeWhile (· != '#')).takeWhile (· != '?')
          else (l.takeWhile (· != '#')).takeWhile (· != '?') ++ '?' ::
            joinChar '&'
              ((splitOnChar '&' (((l.takeWhile (· != '#')).dropWhile (· != '?')).tail)).filter
                (fun p => !startsWithUtm p)) := by
        simp only [normChars, if_neg hl, if_pos hq]
      have hrh : '#' ∉ (l.takeWhile (· != '#')).takeWhile (· != '?') :=
        fun h => hbh ((List.takeWhile_sublist _).subset h)
      have hrq : '?' ∉ (l.takeWhile (· != '#')).takeWhile (· != '?') :=
        sep_not_mem_takeWhile _ '?'
      by_cases hk : ((splitOnChar '&' (((l.takeWhile (· != '#')).dropWhile (· != '?')).tail)).filter
          (fun p => !startsWithUtm p)) = []
      · rw [hv, if_pos hk]
        exact normChars_clean _ hrh hrq
      · rw [hv, if_neg hk]
        refine normChars_query_fixed _ _ hrh hrq hk ?_ ?_ ?_
        · intro p hp
          exact not_mem_of_mem_splitOnChar '&' _ p ((List.filter_sublist _).subset hp)
        · intro p hp hcin
          have hqsub : p ∈ splitOnChar '&'
              (((l.takeWhile (· != '#')).dropWhile (· != '?')).tail) :=
            (List.filter_sublist _).subset hp
          have hinqs : '#' ∈ ((l.takeWhile (· != '#')).dropWhile (· != '?')).tail :=
            mem_of_mem_splitOnChar '&' _ p hqsub '#' hcin
          have hinbase : '#' ∈ l.takeWhile (· != '#') :=
            ((List.tail_sublist _).trans (List.dropWhile_sublist _)).subset hinqs
          exact hbh hinbase
        · intro p hp
          exact (List.mem_filter.mp hp).2
    · have hv : normChars l = l.takeWhile (· != '#') := by
        simp only [normChars, if_neg hl, if_neg hq]
      rw [hv]
      exact normChars_clean _ hbh hq

end AIDigest

/-- Claim C10: `normalize_url` is total on strings by construction (it
is a pure function of the character list), maps the empty string to the
empty string, and is idempotent — re-normalizing an already normalized
link leaves it unchanged, so the dedup key is stable across the primary
and backup dedup passes. -/
theorem claimC10_normalize_url_idempotent :
    AIDigest.normalize_url "" = "" ∧
    ∀ u : String, AIDigest.normalize_url (AIDigest.normalize_url u) =
      AIDigest.normalize_url u := by
  constructor
  · rfl
  · intro u
    exact congrArg String.mk (AIDigest.normChars_idem u.data)
